import Mathlib

/-!
Verification of the decaff template-scaffolding tool: a shallow embedding of
its reference parser (src/repository.rs), ref resolver (src/repository.rs),
content cache (src/cache.rs) and suite dependency resolution (src/config.rs),
together with theorems settling the specification claims about them.

Strings are modelled with Lean `String`/`List Char`; Rust byte lengths and byte
offsets are modelled through an explicit UTF-8 encoder so that spans match the
source exactly.  Fallible operations are modelled with `Except`/`Option`; a
Rust panic (`unwrap` on `None`) is modelled by a dedicated error constructor.
-/

deriving instance DecidableEq for Except

namespace Decaff

/-! ## UTF-8 byte model

Model of `str::as_bytes` / `String::from_utf8` from the Rust standard library,
used by the cache for base-32 keying of repository identities and for byte
lengths/offsets in parser spans. -/

/-- UTF-8 encoding of a single scalar value (RFC 3629), byte values as `Nat`.
Model of the Rust standard encoder. -/
def utf8EncodeCharM (c : Char) : List Nat :=
  let n := c.toNat
  if n < 0x80 then [n]
  else if n < 0x800 then [0xC0 + n / 64, 0x80 + n % 64]
  else if n < 0x10000 then [0xE0 + n / 4096, 0x80 + n / 64 % 64, 0x80 + n % 64]
  else [0xF0 + n / 0x40000, 0x80 + n / 4096 % 64, 0x80 + n / 64 % 64, 0x80 + n % 64]

/-- Model of Rust `str::as_bytes` (UTF-8 bytes of a string). -/
def strBytes (s : String) : List Nat :=
  (s.toList.map utf8EncodeCharM).flatten

/-- Number of UTF-8 bytes of one character. -/
def charBytes (c : Char) : Nat := (utf8EncodeCharM c).length

/-- Byte length of a character list (model of Rust `str::len`). -/
def byteLen (cs : List Char) : Nat := (cs.map charBytes).sum

/-- Is `b` a UTF-8 continuation byte (`0x80..=0xBF`)? -/
def utf8Cont (b : Nat) : Bool := 0x80 ≤ b && b ≤ 0xBF

/-- Strict UTF-8 decoding, model of Rust `String::from_utf8` (rejects overlong
forms, surrogates and values above U+10FFFF). -/
def utf8Decode : List Nat → Option (List Char)
  | [] => some []
  | b :: rest =>
    if b < 0x80 then
      (utf8Decode rest).map (fun cs => Char.ofNat b :: cs)
    else if 0xC2 ≤ b && b ≤ 0xDF then
      match rest with
      | [] => none
      | b2 :: rest2 =>
        if utf8Cont b2 then
          (utf8Decode rest2).map (fun cs => Char.ofNat ((b - 0xC0) * 64 + (b2 - 0x80)) :: cs)
        else none
    else if 0xE0 ≤ b && b ≤ 0xEF then
      match rest with
      | [] => none
      | [_] => none
      | b2 :: b3 :: rest3 =>
        let lo2 := if b = 0xE0 then 0xA0 else 0x80
        let hi2 := if b = 0xED then 0x9F else 0xBF
        if (lo2 ≤ b2 && b2 ≤ hi2) && utf8Cont b3 then
          (utf8Decode rest3).map
            (fun cs => Char.ofNat ((b - 0xE0) * 4096 + (b2 - 0x80) * 64 + (b3 - 0x80)) :: cs)
        else none
    else if 0xF0 ≤ b && b ≤ 0xF4 then
      match rest with
      | [] => none
      | [_] => none
      | [_, _] => none
      | b2 :: b3 :: b4 :: rest4 =>
        let lo2 := if b = 0xF0 then 0x90 else 0x80
        let hi2 := if b = 0xF4 then 0x8F else 0xBF
        if (lo2 ≤ b2 && b2 ≤ hi2) && (utf8Cont b3 && utf8Cont b4) then
          (utf8Decode rest4).map
            (fun cs =>
              Char.ofNat
                ((b - 0xF0) * 0x40000 + (b2 - 0x80) * 4096 + (b3 - 0x80) * 64 + (b4 - 0x80)) :: cs)
        else none
    else none

/-! ## Base-32 (RFC 4648, unpadded)

Model of the `base32` crate with `Alphabet::RFC4648 { padding: false }`, the
encoding used by the cache for manifest bucket keys.  The program never writes
`=` padding with this alphabet, and no claim involves `=`, so padding
stripping is not modelled. -/

/-- The RFC 4648 base-32 alphabet. -/
def base32Alphabet : List Char := "ABCDEFGHIJKLMNOPQRSTUVWXYZ234567".toList

/-- Most-significant-bit-first bits of a value of width `w`. -/
def natBits (w : Nat) (b : Nat) : List Bool :=
  (List.range w).map (fun i => b / 2 ^ (w - 1 - i) % 2 = 1)

/-- Value of a MSB-first bit list. -/
def bitsVal : List Bool → Nat
  | [] => 0
  | b :: bs => (if b then 2 ^ bs.length else 0) + bitsVal bs

/-- Split a bit stream into 5-bit groups, the last group zero-padded. -/
def chunks5 : List Bool → List (List Bool)
  | [] => []
  | b1 :: b2 :: b3 :: b4 :: b5 :: rest => [b1, b2, b3, b4, b5] :: chunks5 rest
  | bs => [bs ++ List.replicate (5 - bs.length) false]

/-- Model of `base32::encode(Alphabet::RFC4648 { padding: false }, data)`. -/
def base32Encode (data : List Nat) : String :=
  String.mk ((chunks5 ((data.map (natBits 8)).flatten)).map
    (fun g => base32Alphabet.getD (bitsVal g) 'A'))

/-- Value of one base-32 character per the crate's inverse alphabet
(case-insensitive letters, digits 2-7; everything else is invalid). -/
def b32CharVal (c : Char) : Option Nat :=
  let u := c.toUpper
  if 'A' ≤ u && u ≤ 'Z' then some (u.toNat - 'A'.toNat)
  else if '2' ≤ u && u ≤ '7' then some (u.toNat - '2'.toNat + 26)
  else none

/-- Split a bit stream into bytes, dropping a trailing partial group. -/
def bitsToBytes : List Bool → List Nat
  | b1 :: b2 :: b3 :: b4 :: b5 :: b6 :: b7 :: b8 :: rest =>
    bitsVal [b1, b2, b3, b4, b5, b6, b7, b8] :: bitsToBytes rest
  | _ => []

/-- Model of `base32::decode(Alphabet::RFC4648 { padding: false }, data)`:
every character must be in the (case-insensitive) alphabet; the 5-bit values
are concatenated and cut into whole bytes. -/
def base32Decode (s : String) : Option (List Nat) :=
  match s.toList.mapM b32CharVal with
  | none => none
  | some vals => some (bitsToBytes ((vals.map (natBits 5)).flatten))

/-! ## Reference parser (src/repository.rs, RemoteRepository::from_str) -/

/-- Supported hosts; GitHub is the default (src/repository.rs RepositoryHost). -/
inductive RepositoryHost where
  | GitHub
  | GitLab
  | BitBucket
deriving DecidableEq, Repr

/-- A parsed remote repository descriptor.  `meta` is the selector
(`RepositoryMeta` in the source); the `refs` map is empty after parsing and is
passed separately to `resolve_hash` below. -/
structure RemoteRepository where
  host : RepositoryHost
  user : String
  repo : String
  meta : String
deriving DecidableEq, Repr

/-- Parse errors; each constructor corresponds to one of the distinct miette
diagnostics built by `RemoteRepository::from_str`, carrying its label span
(byte offset and byte length) where the source attaches one. -/
inductive ParseError where
  | invalidHost (host : String) (offset len : Nat)
  | invalidUser (user : String) (offset len : Nat)
  | missingRepositoryName
  | multipleSlashes (offset : Nat)
  | invalidRepoName (repo : String) (offset len : Nat)
deriving DecidableEq, Repr

/-- Model of the local `is_valid_user` helper inside `from_str`:
ASCII alphanumerics plus underscore and hyphen. -/
def is_valid_user (c : Char) : Bool :=
  (('a' ≤ c && c ≤ 'z') || ('A' ≤ c && c ≤ 'Z') || ('0' ≤ c && c ≤ '9'))
    || c = '_' || c = '-'

/-- Model of the local `is_valid_repo` helper: the user set plus a dot. -/
def is_valid_repo (c : Char) : Bool := is_valid_user c || c = '.'

/-- Model of Rust `str::trim` (faithful on ASCII whitespace, which is all the
program and claims exercise). -/
def rustTrim (cs : List Char) : List Char :=
  ((cs.dropWhile Char.isWhitespace).reverse.dropWhile Char.isWhitespace).reverse

/-- Model of Rust `str::split_once`: split at the first occurrence of `sep`. -/
def splitOnce (sep : Char) : List Char → Option (List Char × List Char)
  | [] => none
  | c :: cs =>
    if c = sep then some ([], cs)
    else (splitOnce sep cs).map (fun p => (c :: p.1, p.2))

/-- Model of Rust `str::find (char)`: byte index of the first occurrence. -/
def byteIdxOf (target : Char) : List Char → Option Nat
  | [] => none
  | c :: cs =>
    if c = target then some 0
    else (byteIdxOf target cs).map (fun i => charBytes c + i)

/-- Host-parsing stage of `from_str`: split at the first colon and map the
lowercased prefix to a host, or default to GitHub when no colon is present.
Returns the host, remaining input and byte offset into the source. -/
def hostStep (source : List Char) : Except ParseError (RepositoryHost × List Char × Nat) :=
  match splitOnce ':' source with
  | some (host0, rest) =>
    let host := host0.map Char.toLower
    let nextOffset := byteLen host + 1
    if host = "github".toList || host = "gh".toList then
      Except.ok (RepositoryHost.GitHub, rest, nextOffset)
    else if host = "gitlab".toList || host = "gl".toList then
      Except.ok (RepositoryHost.GitLab, rest, nextOffset)
    else if host = "bitbucket".toList || host = "bb".toList then
      Except.ok (RepositoryHost.BitBucket, rest, nextOffset)
    else Except.error (ParseError.invalidHost (String.mk host) 0 (byteLen host))
  | none => Except.ok (RepositoryHost.GitHub, source, 0)

/-- User-parsing stage of `from_str`: split at the first slash; the prefix must
consist of valid user characters (`chars().all`, vacuously true when empty).
Returns the user, remaining input and updated byte offset. -/
def userStep (offset : Nat) (input : List Char) :
    Except ParseError (List Char × List Char × Nat) :=
  match splitOnce '/' input with
  | some (user, rest) =>
    if user.all is_valid_user then
      Except.ok (user, rest, offset + byteLen user + 1)
    else Except.error (ParseError.invalidUser (String.mk user) offset (byteLen user))
  | none => Except.error ParseError.missingRepositoryName

/-- The multiple-slash short-circuit of `from_str`: an error is raised only
when the remaining input has a slash and also a hash sign strictly after it. -/
def slashCheck (offset : Nat) (rest : List Char) : Except ParseError Unit :=
  match byteIdxOf '/' rest, byteIdxOf '#' rest with
  | some slashIdx, some hashIdx =>
    if slashIdx < hashIdx then Except.error (ParseError.multipleSlashes (offset + slashIdx))
    else Except.ok ()
  | _, _ => Except.ok ()

/-- Repository-name and meta stage of `from_str`: split at an optional hash
sign, validate the repository name, and produce the selector, defaulting to
`"HEAD"` when the part after the hash sign is absent or empty. -/
def repoStep (host : RepositoryHost) (user : String) (offset : Nat) (rest : List Char) :
    Except ParseError RemoteRepository :=
  let (repo, metaOpt) :=
    match splitOnce '#' rest with
    | some (repo, after) => (repo, some after)
    | none => (rest, none)
  if repo.all is_valid_repo then
    let meta :=
      match metaOpt with
      | some m => if m.isEmpty then "HEAD" else String.mk m
      | none => "HEAD"
    Except.ok { host := host, user := user, repo := String.mk repo, meta := meta }
  else Except.error (ParseError.invalidRepoName (String.mk repo) offset (byteLen repo))

/-- `from_str` on an already-trimmed character list: host, user, slash check,
repository name and selector, in the source's order. -/
def fromStrL (source : List Char) : Except ParseError RemoteRepository :=
  match hostStep source with
  | Except.error e => Except.error e
  | Except.ok (host, input1, offset) =>
    match userStep offset input1 with
    | Except.error e => Except.error e
    | Except.ok (user, rest, offset2) =>
      match slashCheck offset2 rest with
      | Except.error e => Except.error e
      | Except.ok _ => repoStep host (String.mk user) offset2 rest

/-- Model of `RemoteRepository::from_str`. -/
def fromStr (input : String) : Except ParseError RemoteRepository :=
  fromStrL (rustTrim input.toList)

/-- Model of `RemoteRepository::new`: parse the target, then override the
selector with the explicit argument when one is supplied
(`meta.map_or(repo.meta, RepositoryMeta)`). -/
def RemoteRepository.new (target : String) (meta : Option String) :
    Except ParseError RemoteRepository :=
  match fromStr target with
  | Except.error e => Except.error e
  | Except.ok repo =>
    Except.ok { repo with meta := match meta with | none => repo.meta | some m => m }

/-! ## Ref resolution (src/repository.rs, RemoteRepository::resolve_hash) -/

/-- Error type of `resolve_hash` (src/repository.rs ReferenceError). -/
inductive ReferenceError where
  | invalidSelector (s : String)
deriving DecidableEq, Repr

/-- Is `c` a hexadecimal digit (as accepted by libgit2's oid parser)? -/
def isHexChar (c : Char) : Bool :=
  ('0' ≤ c && c ≤ '9') || ('a' ≤ c && c ≤ 'f') || ('A' ≤ c && c ≤ 'F')

/-- Model of Rust `str::starts_with` for string arguments.  A byte prefix of a
valid UTF-8 string that is itself a string is exactly a character-list prefix,
so the two formulations coincide. -/
def strStartsWith (s pre : String) : Bool := pre.toList.isPrefixOf s.toList

/-- Model of `git2::Oid::from_str(s)` followed by `.to_string()`: libgit2
parses up to 40 hex digits into a zero-initialised 20-byte id (rejecting the
empty string, overlong input and non-hex characters), and printing an oid
always renders all 40 hex digits in lowercase.  Hence a short hex selector
comes back zero-padded to 40 characters. -/
def oidFromStrToString (s : String) : Option String :=
  let cs := s.toList
  if cs.length = 0 || 40 < cs.length || !(cs.all isHexChar) then none
  else some (String.mk (cs.map Char.toLower ++ List.replicate (40 - cs.length) '0'))

/-- Model of `RemoteRepository::resolve_hash`.  The ref map (`self.refs`) is an
association list of symbolic name to full hash; `selector` is `self.meta`.
The length guard uses the character count, which agrees with Rust's byte count
on every input the guard can let through (a selector with a multi-byte
character is not hex, so both models answer `invalidSelector`). -/
def resolve_hash (refs : List (String × String)) (selector : String) :
    Except ReferenceError String :=
  match List.lookup selector refs with
  | some hash => Except.ok hash
  | none =>
    if 7 ≤ selector.toList.length then
      match oidFromStrToString selector with
      | some oid =>
        match refs.find? (fun p => strStartsWith p.2 oid) with
        | some p => Except.ok p.2
        | none => Except.ok selector
      | none => Except.error (ReferenceError.invalidSelector selector)
    else Except.error (ReferenceError.invalidSelector selector)

/-! ## Suite dependency resolution (src/config.rs, resolve_requirements)

The `DependenciesGraph` type that `resolve_requirements` delegates to lives in
the repository's `graph` module, which is not part of the provided sources. -/

/-- An action suite; the atomic actions a suite carries play no role in
dependency resolution, so only the resolution-relevant fields are modelled. -/
structure ActionSuite where
  name : String
  requirements : List String
deriving DecidableEq, Repr

/-- Modelled from the spec: the repository's `crate::graph`
(`DependenciesGraph`, `Node`, `Step`) is not under the provided sources, so
the fixed-point pass of section 4.4 is modelled from the spec's words: in each
pass every pending suite whose requirements are all names of already-resolved
suites is moved to the resolved list (in declaration order); the iteration
stops when a pass makes no progress.  The fuel equals the number of suites, an
upper bound on the number of progressing passes. -/
def resolveLoop : Nat → List ActionSuite → List ActionSuite →
    List ActionSuite × List ActionSuite
  | 0, resolved, pending => (resolved, pending)
  | fuel + 1, resolved, pending =>
    let names := resolved.map (fun s => s.name)
    let step := pending.partition (fun s => s.requirements.all (fun r => names.contains r))
    if step.1.isEmpty then (resolved, pending)
    else resolveLoop fuel (resolved ++ step.1) step.2

/-- Modelled from the spec: `resolve_requirements` (src/config.rs) folds the
graph's steps into a resolved list and an unresolved list; per section 4.4 the
suites left pending when the fixed point is reached contribute the names of
their still-unsatisfied requirements to the unresolved output, each name
reported once. -/
def resolve_requirements (suites : List ActionSuite) :
    List ActionSuite × List String :=
  let fp := resolveLoop suites.length [] suites
  let resolvedNames := fp.1.map (fun s => s.name)
  let unresolved :=
    ((fp.2.map (fun s => s.requirements)).flatten.filter
      (fun r => !(resolvedNames.contains r))).eraseDups
  (fp.1, unresolved)

/-! ## Content cache (src/cache.rs)

The manifest (a `HashMap<Entry, Vec<Item>>` on disk as TOML) is modelled as an
association list with distinct keys, and the tarball store (one file per hash
under `tarballs/`) as an association list from hash to byte contents.  The
sequence of filesystem effects of `Cache::write` is modelled explicitly as an
event trace so that ordering claims can be stated. -/

/-- A cached revision (src/cache.rs Item). -/
structure Item where
  name : String
  hash : String
  timestamp : Int
deriving DecidableEq, Repr

/-- Manifest template table: encoded identity to its bucket of items. -/
abbrev ManifestMap := List (String × List Item)

/-- Cache errors (src/cache.rs CacheError).  The distinct diagnostics the
source builds are told apart by constructor; `malformedEntry`, `invalidUtf8`
and `undecodableEntry` all carry the help text instructing the user to clear
the cache.  `panicked` models a Rust panic (`Option::unwrap` on `None`), which
is not a `CacheError` at all in the source: the process aborts. -/
inductive CacheError where
  | io (message : String)
  | malformedEntry (input : String)
  | invalidUtf8 (key : String)
  | undecodableEntry (key : String)
  | panicked
deriving DecidableEq, Repr

/-- Does this cache outcome surface as a fatal clear-the-cache diagnostic
(rather than a panic or an I/O error)? -/
def CacheError.isClearCacheDiagnostic : CacheError → Bool
  | CacheError.malformedEntry _ => true
  | CacheError.invalidUtf8 _ => true
  | CacheError.undecodableEntry _ => true
  | _ => false

/-- Association-list lookup-or-replace, model of `HashMap::insert` (the value
of an existing key is replaced). -/
def ainsert (k : String) (v : α) : List (String × α) → List (String × α)
  | [] => [(k, v)]
  | (k1, v1) :: rest =>
    if k1 = k then (k, v) :: rest else (k1, v1) :: ainsert k v rest

/-- Model of `HashMap::entry(k).and_modify(f).or_insert_with(|| d)`. -/
def amodify (k : String) (f : α → α) (d : α) : List (String × α) → List (String × α)
  | [] => [(k, d)]
  | (k1, v1) :: rest =>
    if k1 = k then (k1, f v1) :: rest else (k1, v1) :: amodify k f d rest

/-- Association-list key removal, model of deleting the file named by a hash
from the tarball directory (removing an absent key is a no-op, mirroring the
ignored `remove_file` failure). -/
def aremove (k : String) : List (String × α) → List (String × α)
  | [] => []
  | (k1, v1) :: rest => if k1 = k then rest else (k1, v1) :: aremove k rest

/-- Model of `Cache::compare_hashes`: the shorter hash must be a prefix of the
longer one, equal lengths require equality.  Rust compares byte lengths; the
character count is interchangeable here because a character-list prefix is
exactly a byte prefix and both length orders agree on prefixes, so the
three-way outcome is the same. -/
def compare_hashes (left right : String) : Bool :=
  if left.toList.length < right.toList.length then strStartsWith right left
  else if right.toList.length < left.toList.length then strStartsWith left right
  else left = right

/-- Model of `Manifest::normalize`: buckets that are empty are dropped. -/
def normalize (m : ManifestMap) : ManifestMap :=
  m.filter (fun p => !p.2.isEmpty)

/-- The manifest bucket key of a repository identity:
`base32::encode(BASE32_ALPHABET, source.as_bytes())`. -/
def encodeEntry (source : String) : String := base32Encode (strBytes source)

/-- The manifest update performed by `Cache::write`: look up the identity's
bucket; when any existing item hash-compares with the new hash do nothing,
otherwise push a new item; a missing bucket is created with the single new
item; then `Manifest::write` normalizes before persisting. -/
def manifestAfterWrite (m : ManifestMap) (entry name hash : String) (timestamp : Int) :
    ManifestMap :=
  normalize (amodify entry
    (fun items =>
      if items.any (fun item => compare_hashes hash item.hash) then items
      else items ++ [{ name := name, hash := hash, timestamp := timestamp }])
    [{ name := name, hash := hash, timestamp := timestamp }] m)

/-- Cache state: the manifest on disk plus the tarball blob store. -/
structure CacheState where
  manifest : ManifestMap
  blobs : List (String × List Nat)
deriving DecidableEq, Repr

/-- One filesystem effect of `Cache::write`, in order of occurrence. -/
inductive FsEvent where
  | createRootDir
  | writeManifestFile (m : ManifestMap)
  | createTarballsDir
  | writeBlobFile (hash : String) (contents : List Nat)
deriving DecidableEq, Repr

/-- Is this event the manifest persistence step? -/
def FsEvent.isManifestWrite : FsEvent → Bool
  | FsEvent.writeManifestFile _ => true
  | _ => false

/-- Is this event the tarball (blob) persistence step? -/
def FsEvent.isBlobWrite : FsEvent → Bool
  | FsEvent.writeBlobFile _ _ => true
  | _ => false

/-- Effect of one filesystem event on the persisted cache state. -/
def applyEvent (st : CacheState) : FsEvent → CacheState
  | FsEvent.createRootDir => st
  | FsEvent.writeManifestFile m => { st with manifest := m }
  | FsEvent.createTarballsDir => st
  | FsEvent.writeBlobFile hash contents => { st with blobs := ainsert hash contents st.blobs }

/-- The filesystem effects of `Cache::write(source, name, hash, contents)`, in
the order the source performs them: `Manifest::write` (create the cache root,
serialize and write the manifest) runs first, then the tarball directory is
created and the blob is written under `<hash>.tar.gz`. -/
def Cache.writeTrace (c : CacheState) (source name hash : String) (contents : List Nat)
    (timestamp : Int) : List FsEvent :=
  [FsEvent.createRootDir,
   FsEvent.writeManifestFile
     (manifestAfterWrite c.manifest (encodeEntry source) name hash timestamp),
   FsEvent.createTarballsDir,
   FsEvent.writeBlobFile hash contents]

/-- Model of `Cache::write`: the cache state after all effects of the trace. -/
def Cache.write (c : CacheState) (source name hash : String) (contents : List Nat)
    (timestamp : Int) : CacheState :=
  (Cache.writeTrace c source name hash contents timestamp).foldl applyEvent c

/-- The bucket scan of `Cache::read`: the first item of the identity's bucket
whose stored hash hash-compares with the requested hash. -/
def findCachedItem (c : CacheState) (source hash : String) : Option Item :=
  (List.lookup (encodeEntry source) c.manifest).bind
    (fun items => items.find? (fun item => compare_hashes hash item.hash))

/-- Model of `Cache::read`: a matching manifest item whose blob is present
yields its contents; a matching item whose blob file is absent is a hard I/O
error; no bucket or no matching item is a silent `none`. -/
def Cache.read (c : CacheState) (source hash : String) :
    Except CacheError (Option (List Nat)) :=
  match findCachedItem c source hash with
  | some item =>
    match List.lookup item.hash c.blobs with
    | some contents => Except.ok (some contents)
    | none => Except.error (CacheError.io "Failed to read the cached tarball.")
  | none => Except.ok none

/-- The inner bucket scan of `Manifest::select_entries` for one term: collect
the bucket's items whose name equals the term or whose hash hash-compares with
it, and when non-empty put them into the selection with `HashMap::insert`. -/
def scanBucketStep (term : String) (sel : ManifestMap) (p : String × List Item) :
    ManifestMap :=
  let droppable := p.2.filter (fun item => item.name = term || compare_hashes item.hash term)
  if droppable.isEmpty then sel else ainsert p.1 droppable sel

/-- One search-term step of `Manifest::select_entries`: a direct bucket lookup
under the term's encoding selects the whole bucket, otherwise every bucket is
scanned; either way insertion replaces whatever an earlier term selected for
the same bucket. -/
def selectTermStep (m : ManifestMap) (selection : ManifestMap) (term : String) :
    ManifestMap :=
  match List.lookup (encodeEntry term) m with
  | some items => ainsert (encodeEntry term) items selection
  | none => m.foldl (scanBucketStep term) selection

/-- Model of `Manifest::select_entries`. -/
def select_entries (m : ManifestMap) (search : List String) : ManifestMap :=
  search.foldl (selectTermStep m) []

/-- Model of `Manifest::remove_entries`: for each selected bucket, retain only
the items not contained in the selection for that bucket. -/
def remove_entries (m : ManifestMap) (selection : ManifestMap) : ManifestMap :=
  selection.foldl
    (fun acc p =>
      acc.map (fun q =>
        if q.1 = p.1 then (q.1, q.2.filter (fun item => decide (item ∉ p.2))) else q))
    m

/-- The per-bucket loop of `Cache::remove`: each selected bucket key is
decoded with `base32::decode(..).and_then(|b| String::from_utf8(b).ok())
.unwrap()` — an undecodable key makes the process panic — then parsed with
`Cache::parse_repository` (failure is the malformed-entry diagnostic), and
each selected item's tarball file is deleted, ignoring deletion failures. -/
def removeLoop (blobs : List (String × List Nat)) :
    ManifestMap → Except CacheError (List (String × List Nat))
  | [] => Except.ok blobs
  | (entry, items) :: rest =>
    match (base32Decode entry).bind utf8Decode with
    | none => Except.error CacheError.panicked
    | some chars =>
      match fromStr (String.mk chars) with
      | Except.error _ => Except.error (CacheError.malformedEntry (String.mk chars))
      | Except.ok _ =>
        removeLoop (items.foldl (fun b item => aremove item.hash b) blobs) rest

/-- Model of `Cache::remove`: select entries for the given needles, delete
their tarballs (panicking on an undecodable bucket key), then drop the
selection from the manifest and persist it normalized. -/
def Cache.remove (c : CacheState) (needles : List String) :
    Except CacheError CacheState :=
  match removeLoop c.blobs (select_entries c.manifest needles) with
  | Except.error e => Except.error e
  | Except.ok blobs =>
    Except.ok
      { manifest := normalize (remove_entries c.manifest (select_entries c.manifest needles)),
        blobs := blobs }

/-- The per-bucket loop of `Cache::list`: a bucket key that fails base-32
decoding is the undecodable-entry diagnostic, decoded bytes that are not UTF-8
are the invalid-UTF-8 diagnostic, and an identity that fails to parse is the
malformed-entry diagnostic; printing is not modelled. -/
def listLoop : ManifestMap → Except CacheError Unit
  | [] => Except.ok ()
  | (key, _) :: rest =>
    match base32Decode key with
    | some bytes =>
      match utf8Decode bytes with
      | none => Except.error (CacheError.invalidUtf8 key)
      | some chars =>
        match fromStr (String.mk chars) with
        | Except.error _ => Except.error (CacheError.malformedEntry (String.mk chars))
        | Except.ok _ => listLoop rest
    | none => Except.error (CacheError.undecodableEntry key)

/-- Model of `Cache::list`. -/
def Cache.list (c : CacheState) : Except CacheError Unit :=
  listLoop c.manifest

/-- The per-term selection of the spec's removal rule, stated from the spec's
words for comparison with `select_entries`: what a single term contributes for
a given bucket — the whole bucket when the term is that bucket's literal
identity, otherwise the bucket's name-or-hash matches when non-empty. -/
def termMatches (m : ManifestMap) (term entry : String) : Option (List Item) :=
  match List.lookup (encodeEntry term) m with
  | some items => if encodeEntry term = entry then some items else none
  | none =>
    match List.lookup entry m with
    | some items =>
      let droppable := items.filter
        (fun item => item.name = term || compare_hashes item.hash term)
      if droppable.isEmpty then none else some droppable
    | none => none

/-- Is this parse outcome the multiple-slashes error? -/
def isMultipleSlashesError : Except ParseError RemoteRepository → Bool
  | Except.error (ParseError.multipleSlashes _) => true
  | _ => false

end Decaff

namespace Decaff

/-! ## Auxiliary lemmas -/

theorem lookup_ainsert {α : Type} (k k1 : String) (v : α) (m : List (String × α)) :
    List.lookup k1 (ainsert k v m) = if k1 = k then some v else List.lookup k1 m := by
  induction m with
  | nil => by_cases h1 : k1 = k <;> simp [ainsert, List.lookup_cons, beq_eq_decide, h1]
  | cons p rest ih =>
    obtain ⟨k2, v2⟩ := p
    by_cases h2 : k2 = k
    · subst h2
      by_cases h1 : k1 = k2 <;> simp [ainsert, List.lookup_cons, beq_eq_decide, h1]
    · by_cases h1 : k1 = k2 <;>
        simp [ainsert, List.lookup_cons, beq_eq_decide, h1, h2, ih]

theorem lookup_amodify {α : Type} (k k1 : String) (f : α → α) (d : α)
    (m : List (String × α)) :
    List.lookup k1 (amodify k f d m)
      = if k1 = k then
          some (match List.lookup k m with | some v => f v | none => d)
        else List.lookup k1 m := by
  induction m with
  | nil => by_cases h1 : k1 = k <;> simp [amodify, List.lookup_cons, beq_eq_decide, h1]
  | cons p rest ih =>
    obtain ⟨k2, v2⟩ := p
    by_cases h2 : k2 = k
    · subst h2
      by_cases h1 : k1 = k2 <;> simp [amodify, List.lookup_cons, beq_eq_decide, h1]
    · by_cases h1 : k1 = k2 <;>
        simp [amodify, List.lookup_cons, beq_eq_decide, h1, h2, Ne.symm h2, ih]

theorem amodify_eq_self {α : Type} (k : String) (f : α → α) (d : α) (v : α)
    (m : List (String × α)) (hin : List.lookup k m = some v) (hf : f v = v) :
    amodify k f d m = m := by
  induction m with
  | nil => simp [List.lookup_nil] at hin
  | cons p rest ih =>
    obtain ⟨k2, v2⟩ := p
    by_cases h2 : k2 = k
    · subst h2
      simp [List.lookup_cons, beq_eq_decide] at hin
      subst hin
      simp [amodify, hf]
    · simp [List.lookup_cons, beq_eq_decide, Ne.symm h2] at hin
      simp [amodify, h2, ih hin]

theorem lookup_normalize_of_ne_nil (k : String) (v : List Item) (m : ManifestMap)
    (hin : List.lookup k m = some v) (hv : v ≠ []) :
    List.lookup k (normalize m) = some v := by
  induction m with
  | nil => simp [List.lookup_nil] at hin
  | cons p rest ih =>
    obtain ⟨k2, v2⟩ := p
    by_cases h2 : k = k2
    · subst h2
      simp [List.lookup_cons, beq_eq_decide] at hin
      subst hin
      have hne : v2.isEmpty = false := by
        cases v2 <;> simp_all [List.isEmpty]
      simp [normalize, List.filter_cons, hne, List.lookup_cons, beq_eq_decide]
    · simp [List.lookup_cons, beq_eq_decide, h2] at hin
      have hrest := ih hin
      by_cases he : v2.isEmpty = true <;>
        simp only [normalize, List.filter_cons, he, if_true, if_false,
          Bool.not_true, Bool.not_false, cond_true, cond_false] <;>
        simp [List.lookup_cons, beq_eq_decide, h2] <;>
        simpa [normalize] using hrest

theorem normalize_normalize (m : ManifestMap) : normalize (normalize m) = normalize m := by
  simp [normalize, List.filter_filter]

theorem lookup_eq_none_of_not_mem_keys {α : Type} (k : String) (m : List (String × α))
    (h : k ∉ m.map Prod.fst) : List.lookup k m = none := by
  induction m with
  | nil => simp [List.lookup_nil]
  | cons p rest ih =>
    obtain ⟨k2, v2⟩ := p
    simp only [List.map_cons, List.mem_cons] at h
    push_neg at h
    simp only [List.lookup_cons, beq_eq_decide, h.1, decide_eq_false_iff_not,
      not_false_eq_true]
    simpa using ih h.2

theorem isPrefixOf_self_append (l t : List Char) : l.isPrefixOf (l ++ t) = true := by
  induction l with
  | nil => simp [List.isPrefixOf]
  | cons c cs ih => simp [List.isPrefixOf, ih]

theorem find?_append_of_none {α : Type} (p : α → Bool) (l1 l2 : List α)
    (h : l1.find? p = none) : (l1 ++ l2).find? p = l2.find? p := by
  rw [List.find?_append, h, Option.none_or]

theorem findSome?_append {α β : Type} (f : α → Option β) (l1 l2 : List α) :
    (l1 ++ l2).findSome? f
      = match l1.findSome? f with
        | some b => some b
        | none => l2.findSome? f := by
  induction l1 with
  | nil => simp [List.findSome?]
  | cons a rest ih =>
    cases hfa : f a <;> simp [List.findSome?_cons, hfa, ih]

theorem lookup_manifestAfterWrite_self (m : ManifestMap) (e name hash : String) (ts : Int)
    (h : ((List.lookup e m).getD []).all (fun i => !(compare_hashes hash i.hash)) = true) :
    List.lookup e (manifestAfterWrite m e name hash ts)
      = some ((List.lookup e m).getD []
          ++ [{ name := name, hash := hash, timestamp := ts }]) := by
  unfold manifestAfterWrite
  apply lookup_normalize_of_ne_nil
  · rw [lookup_amodify, if_pos rfl]
    cases hc : List.lookup e m with
    | none => simp [hc]
    | some items =>
      rw [hc] at h
      simp only [Option.getD_some] at h
      have hany : items.any (fun item => compare_hashes hash item.hash) = false := by
        rw [List.any_eq_false]
        intro x hx
        have hx2 := List.all_eq_true.mp h x hx
        simp only [Bool.not_eq_true'] at hx2
        simp [hx2]
      simp [hc, hany]
  · simp

theorem manifestAfterWrite_already (m : ManifestMap) (e name hash : String) (ts : Int)
    (B : List Item) (hB : List.lookup e m = some B)
    (hany : B.any (fun item => compare_hashes hash item.hash) = true)
    (hnorm : normalize m = m) :
    manifestAfterWrite m e name hash ts = m := by
  unfold manifestAfterWrite
  rw [amodify_eq_self e _ _ B m hB (by simp [hany])]
  exact hnorm

theorem compare_hashes_self (hash : String) : compare_hashes hash hash = true := by
  simp [compare_hashes]

theorem lookup_scanBucketFold (term entry : String) (m : ManifestMap)
    (hnd : (m.map Prod.fst).Nodup) (acc : ManifestMap) :
    List.lookup entry (m.foldl (scanBucketStep term) acc)
      = match List.lookup entry m with
        | some items =>
          if (items.filter
              (fun item => item.name = term || compare_hashes item.hash term)).isEmpty then
            List.lookup entry acc
          else
            some (items.filter
              (fun item => item.name = term || compare_hashes item.hash term))
        | none => List.lookup entry acc := by
  induction m generalizing acc with
  | nil => simp [List.lookup_nil]
  | cons p rest ih =>
    obtain ⟨k2, items2⟩ := p
    have hnd2 : (rest.map Prod.fst).Nodup := (List.nodup_cons.mp (by simpa using hnd)).2
    have hknotin : k2 ∉ rest.map Prod.fst := (List.nodup_cons.mp (by simpa using hnd)).1
    simp only [List.foldl_cons]
    rw [ih hnd2]
    by_cases he : entry = k2
    · subst he
      rw [lookup_eq_none_of_not_mem_keys entry rest hknotin]
      simp only [List.lookup_cons, beq_eq_decide, decide_True, if_true]
      unfold scanBucketStep
      by_cases hd : (items2.filter
          (fun item => item.name = term || compare_hashes item.hash term)).isEmpty
      · simp [hd]
      · simp only [hd, if_false, Bool.false_eq_true, reduceIte]
        rw [lookup_ainsert, if_pos rfl]
    · have hcons : List.lookup entry (((k2, items2) :: rest) : ManifestMap)
          = List.lookup entry rest := by
        simp [List.lookup_cons, beq_eq_decide, he]
      rw [hcons]
      unfold scanBucketStep
      by_cases hd : (items2.filter
          (fun item => item.name = term || compare_hashes item.hash term)).isEmpty
      · simp [hd]
      · simp only [hd, if_false, Bool.false_eq_true, reduceIte]
        rw [lookup_ainsert, if_neg he]

theorem lookup_selectTermStep (m : ManifestMap) (hnd : (m.map Prod.fst).Nodup)
    (acc : ManifestMap) (term entry : String) :
    List.lookup entry (selectTermStep m acc term)
      = match termMatches m term entry with
        | some v => some v
        | none => List.lookup entry acc := by
  unfold selectTermStep termMatches
  cases hc : List.lookup (encodeEntry term) m with
  | some items =>
    rw [lookup_ainsert]
    show (if entry = encodeEntry term then some items else List.lookup entry acc)
      = match (if encodeEntry term = entry then some items else none) with
        | some v => some v
        | none => List.lookup entry acc
    by_cases he : encodeEntry term = entry
    · rw [if_pos he.symm, if_pos he]
    · rw [if_neg (fun h2 => he h2.symm), if_neg he]
  | none =>
    rw [lookup_scanBucketFold term entry m hnd acc]
    cases hl : List.lookup entry m with
    | none => simp
    | some items =>
      by_cases hd : (items.filter
          (fun item => item.name = term || compare_hashes item.hash term)).isEmpty <;>
        simp [hd]

theorem lookup_select_fold (m : ManifestMap) (hnd : (m.map Prod.fst).Nodup)
    (search : List String) (acc : ManifestMap) (entry : String) :
    List.lookup entry (search.foldl (selectTermStep m) acc)
      = match (search.reverse).findSome? (fun t => termMatches m t entry) with
        | some v => some v
        | none => List.lookup entry acc := by
  induction search generalizing acc with
  | nil => simp [List.findSome?]
  | cons t ts ih =>
    simp only [List.foldl_cons, List.reverse_cons]
    rw [ih (selectTermStep m acc t), findSome?_append,
      lookup_selectTermStep m hnd acc t entry]
    cases h1 : (ts.reverse).findSome? (fun t => termMatches m t entry) <;>
      cases h2 : termMatches m t entry <;>
        simp [List.findSome?_cons, h2]

theorem splitOnce_eq_none_iff (sep : Char) (cs : List Char) :
    splitOnce sep cs = none ↔ sep ∉ cs := by
  induction cs with
  | nil => simp [splitOnce]
  | cons c rest ih =>
    by_cases hc : c = sep
    · subst hc
      simp [splitOnce]
    · simp [splitOnce, hc, Option.map_eq_none, ih, Ne.symm hc]

theorem byteIdxOf_eq_none_iff (target : Char) (cs : List Char) :
    byteIdxOf target cs = none ↔ target ∉ cs := by
  induction cs with
  | nil => simp [byteIdxOf]
  | cons c rest ih =>
    by_cases hc : c = target
    · subst hc
      simp [byteIdxOf]
    · simp [byteIdxOf, hc, Option.map_eq_none, ih, Ne.symm hc]

/-! ## Claim theorems -/

/-- C1: the claim's scenario evaluated on the code.  The selector
`"4a5a56f"` is not a key of the ref map, has length at least 7, parses as a
valid hexadecimal object identifier, and is a prefix of the 40-character full
hash stored for `"main"`; yet `resolve_hash` answers with the selector itself,
not the matched full hash, because the parsed oid is rendered zero-padded to
40 characters before the prefix search. -/
theorem c1_short_hash_not_matched :
    resolve_hash [("main", String.mk ('4' :: 'a' :: '5' :: 'a' :: '5' :: '6' :: 'f' ::
        List.replicate 33 'd'))] "4a5a56f"
      = Except.ok "4a5a56f"
    ∧ List.lookup "4a5a56f" [("main", String.mk ('4' :: 'a' :: '5' :: 'a' :: '5' :: '6' :: 'f' ::
        List.replicate 33 'd'))] = none
    ∧ 7 ≤ ("4a5a56f" : String).toList.length
    ∧ (oidFromStrToString "4a5a56f").isSome = true
    ∧ strStartsWith (String.mk ('4' :: 'a' :: '5' :: 'a' :: '5' :: '6' :: 'f' ::
        List.replicate 33 'd')) "4a5a56f" = true
    ∧ "4a5a56f" ≠ String.mk ('4' :: 'a' :: '5' :: 'a' :: '5' :: '6' :: 'f' ::
        List.replicate 33 'd') := by
  refine ⟨by decide, by decide, by decide, by decide, by decide, by decide⟩

/-- C6 counterexample: `"user/repo/extra"` contains no hash sign, so the
multiple-slashes short-circuit does not fire (it requires a hash sign after
the slash); parsing fails, but with the invalid-repository-name error over
`"repo/extra"`, not the multiple-slashes error the claim requires. -/
theorem c6_no_hash_sign_gives_repo_error :
    fromStr "user/repo/extra"
      = Except.error (ParseError.invalidRepoName "repo/extra" 5 10)
    ∧ isMultipleSlashesError (fromStr "user/repo/extra") = false := by
  exact ⟨by decide, by decide⟩

/-- C7 counterexample: the user segment of `"/repo"` is empty, yet parsing
succeeds with an empty user, because `chars().all(is_valid_user)` is vacuously
true on the empty segment — the claimed non-emptiness check does not exist. -/
theorem c7_empty_user_accepted :
    fromStr "/repo"
      = Except.ok { host := RepositoryHost.GitHub, user := "", repo := "repo", meta := "HEAD" } := by
  decide

/-- C8 counterexample: constructing with the explicit selector argument
`Some("")` keeps the empty selector verbatim (`meta.map_or(repo.meta,
RepositoryMeta)` wraps the given string unconditionally), so the constructed
descriptor's selector is `""`, not the claimed default `"HEAD"`. -/
theorem c8_empty_explicit_selector_kept :
    RemoteRepository.new "foo/bar" (some "")
      = Except.ok { host := RepositoryHost.GitHub, user := "foo", repo := "bar", meta := "" }
    ∧ ("" : String) ≠ "HEAD" := by
  exact ⟨by decide, by decide⟩

/-- C2 counterexample: in the effect trace of `Cache::write` from an empty
cache, the manifest write is the second event and the blob write the fourth —
the manifest is persisted before the blob, not after.  Replaying only the
events up to the manifest write (a crash before the blob write) leaves a state
whose manifest already references the new hash while the blob store has no
entry for it, exactly the situation the claim rules out. -/
theorem c2_manifest_persisted_before_blob :
    (Cache.writeTrace { manifest := [], blobs := [] } "github:foo/bar" "main" "abc123abc1"
        [7] 0).findIdx FsEvent.isManifestWrite = 1
    ∧ (Cache.writeTrace { manifest := [], blobs := [] } "github:foo/bar" "main" "abc123abc1"
        [7] 0).findIdx FsEvent.isBlobWrite = 3
    ∧ (((Cache.writeTrace { manifest := [], blobs := [] } "github:foo/bar" "main" "abc123abc1"
          [7] 0).take 2).foldl applyEvent { manifest := [], blobs := [] }).manifest
        = [(encodeEntry "github:foo/bar",
            [{ name := "main", hash := "abc123abc1", timestamp := 0 }])]
    ∧ List.lookup "abc123abc1"
        (((Cache.writeTrace { manifest := [], blobs := [] } "github:foo/bar" "main" "abc123abc1"
            [7] 0).take 2).foldl applyEvent { manifest := [], blobs := [] }).blobs
        = none := by
  exact ⟨by decide, by decide, by decide, by decide⟩

/-- C3 counterexample: with one bucket holding the items named `"alpha"` and
`"beta"`, removing with the two search terms `["alpha", "beta"]` does not
remove the union of the per-term matches: the second term's selection
replaces the first term's selection for the bucket (`HashMap::insert`), so
the item named `"alpha"` — matched by the first term — survives the removal,
and only `"beta"`'s tarball and manifest entry are removed. -/
theorem c3_second_term_overwrites_first :
    Cache.remove
        { manifest := [(encodeEntry "github:foo/bar",
            [{ name := "alpha", hash := "aaaa1111", timestamp := 1 },
             { name := "beta", hash := "bbbb2222", timestamp := 2 }])],
          blobs := [("aaaa1111", [1]), ("bbbb2222", [2])] }
        ["alpha", "beta"]
      = Except.ok
          { manifest := [(encodeEntry "github:foo/bar",
              [{ name := "alpha", hash := "aaaa1111", timestamp := 1 }])],
            blobs := [("aaaa1111", [1])] }
    ∧ List.lookup (encodeEntry "alpha")
        ([(encodeEntry "github:foo/bar",
          [{ name := "alpha", hash := "aaaa1111", timestamp := 1 },
           { name := "beta", hash := "bbbb2222", timestamp := 2 }])] : ManifestMap) = none := by
  exact ⟨by decide, by decide⟩

/-- C9: the claim evaluated on the code at a manifest whose bucket key `"0"`
is not valid base-32 (the character `0` is outside the RFC 4648 alphabet).
`Cache::list` surfaces it as the fatal clear-the-cache diagnostic, as the
claim states; but `Cache::remove`, reaching the same key through a name
match, calls `unwrap()` on the failed decode and panics instead of returning
any diagnostic. -/
theorem c9_remove_panics_on_undecodable_key :
    Cache.list
        { manifest := [("0", [{ name := "x", hash := "h", timestamp := 0 }])],
          blobs := [] }
      = Except.error (CacheError.undecodableEntry "0")
    ∧ (CacheError.undecodableEntry "0").isClearCacheDiagnostic = true
    ∧ Cache.remove
        { manifest := [("0", [{ name := "x", hash := "h", timestamp := 0 }])],
          blobs := [] } ["x"]
      = Except.error CacheError.panicked
    ∧ CacheError.panicked.isClearCacheDiagnostic = false := by
  exact ⟨by decide, by decide, by decide, by decide⟩

/-- C10: dependency resolution is total in this model and, on the cyclic pair
of suites A (requires B) and B (requires A), returns with both requirement
names in the unresolved output and neither suite in the resolved output. -/
theorem c10_cycle_terminates :
    resolve_requirements
        [{ name := "A", requirements := ["B"] }, { name := "B", requirements := ["A"] }]
      = ([], ["B", "A"]) := by
  decide

/-- C2 amended: in `Cache::write` the manifest is persisted first (second
event of the effect trace) and the blob last (fourth and final event), for
every input.  Consequently at the crash point just after the manifest write
the blob store is still untouched while the manifest already carries the new
entry: a crash between the two writes leaves the manifest referencing a blob
that was never written; it is a crash between the blob write and a later
manifest write that cannot occur, since no write follows the blob write. -/
theorem c2_amended (c : CacheState) (source name hash : String) (contents : List Nat)
    (ts : Int) :
    (Cache.writeTrace c source name hash contents ts).findIdx FsEvent.isManifestWrite = 1
    ∧ (Cache.writeTrace c source name hash contents ts).findIdx FsEvent.isBlobWrite = 3
    ∧ (Cache.writeTrace c source name hash contents ts).getLast?
        = some (FsEvent.writeBlobFile hash contents)
    ∧ (((Cache.writeTrace c source name hash contents ts).take 2).foldl applyEvent c).manifest
        = manifestAfterWrite c.manifest (encodeEntry source) name hash ts
    ∧ (((Cache.writeTrace c source name hash contents ts).take 2).foldl applyEvent c).blobs
        = c.blobs
    ∧ Cache.write c source name hash contents ts
        = { manifest := manifestAfterWrite c.manifest (encodeEntry source) name hash ts,
            blobs := ainsert hash contents c.blobs } := by
  exact ⟨rfl, rfl, rfl, rfl, rfl, rfl⟩

/-- C7 amended: the span-exact invalid-user-name error is raised exactly when
the user segment contains a character outside ASCII alphanumerics, underscore
and hyphen; an empty user segment contains no such character, so it passes the
vacuous `chars().all` check and `"/repo"` parses successfully into a
descriptor with an empty user rather than failing. -/
theorem c7_amended :
    (∀ (cs : List Char) (host : RepositoryHost) (input1 : List Char) (offset : Nat)
        (user rest : List Char),
        rustTrim cs = cs →
        hostStep cs = Except.ok (host, input1, offset) →
        splitOnce '/' input1 = some (user, rest) →
        user.all is_valid_user = false →
        fromStr (String.mk cs)
          = Except.error (ParseError.invalidUser (String.mk user) offset (byteLen user)))
    ∧ fromStr "/repo" = Except.ok
        { host := RepositoryHost.GitHub, user := "", repo := "repo", meta := "HEAD" } := by
  constructor
  · intro cs host input1 offset user rest htrim hhost hsplit hval
    show fromStrL (rustTrim (String.mk cs).toList) = _
    have hl : (String.mk cs).toList = cs := rfl
    rw [hl, htrim]
    simp [fromStrL, hhost, userStep, hsplit, hval]
  · decide

/-- C8 amended: parsing defaults the selector to `"HEAD"` when the selector
part is absent or empty (`parse("foo/bar#")` equals `parse("foo/bar")`, and in
general an empty after-hash part yields `"HEAD"`); the constructor uses the
parsed selector when its explicit argument is absent, but when the argument is
present it is taken verbatim — including the empty string, which therefore
yields an empty selector rather than the default. -/
theorem c8_amended :
    (fromStr "foo/bar#" = fromStr "foo/bar"
      ∧ fromStr "foo/bar" = Except.ok
          { host := RepositoryHost.GitHub, user := "foo", repo := "bar", meta := "HEAD" })
    ∧ (∀ t : String, RemoteRepository.new t none = fromStr t)
    ∧ (∀ t m : String, RemoteRepository.new t (some m)
        = (fromStr t).map (fun r => { r with meta := m }))
    ∧ (∀ (host : RepositoryHost) (user : String) (offset : Nat) (rest repo : List Char),
        splitOnce '#' rest = some (repo, []) →
        repo.all is_valid_repo = true →
        repoStep host user offset rest
          = Except.ok { host := host, user := user, repo := String.mk repo, meta := "HEAD" }) := by
  refine ⟨⟨by decide, by decide⟩, ?_, ?_, ?_⟩
  · intro t
    cases h : fromStr t <;> simp [RemoteRepository.new, h]
  · intro t m
    cases h : fromStr t <;> simp [RemoteRepository.new, h, Except.map]
  · intro host user offset rest repo hsp hval
    simp [repoStep, hsp, hval, List.isEmpty]

/-- C8 amended, witnessed at `"foo/bar#"`: the repository stage with an empty
after-hash part produces the default selector. -/
theorem c8_amended_witness :
    repoStep RepositoryHost.GitHub "foo" 4 "bar#".toList
      = Except.ok
          { host := RepositoryHost.GitHub, user := "foo", repo := "bar", meta := "HEAD" } :=
  c8_amended.2.2.2 RepositoryHost.GitHub "foo" 4 "bar#".toList "bar".toList
    (by decide) (by decide)

/-- C6 amended: after the user segment, a slash occurring before a hash sign
that is also present raises the span-exact multiple-slashes error; extra
slashes occurring only after the hash sign are accepted (the selector may
contain slashes); but when the input contains no hash sign at all the
multiple-slashes check does not fire, and an extra slash is instead rejected
by the repository-name validation with the invalid-repository-name error. -/
theorem c6_amended :
    (∀ (cs : List Char) (host : RepositoryHost) (input1 : List Char) (offset : Nat)
        (user rest : List Char) (offset2 i j : Nat),
        rustTrim cs = cs →
        hostStep cs = Except.ok (host, input1, offset) →
        userStep offset input1 = Except.ok (user, rest, offset2) →
        byteIdxOf '/' rest = some i →
        byteIdxOf '#' rest = some j →
        i < j →
        fromStr (String.mk cs) = Except.error (ParseError.multipleSlashes (offset2 + i)))
    ∧ (∀ (cs : List Char) (host : RepositoryHost) (input1 : List Char) (offset : Nat)
        (user rest : List Char) (offset2 i j : Nat) (repo after : List Char),
        rustTrim cs = cs →
        hostStep cs = Except.ok (host, input1, offset) →
        userStep offset input1 = Except.ok (user, rest, offset2) →
        byteIdxOf '/' rest = some i →
        byteIdxOf '#' rest = some j →
        ¬ i < j →
        splitOnce '#' rest = some (repo, after) →
        repo.all is_valid_repo = true →
        fromStr (String.mk cs)
          = Except.ok
              { host := host, user := String.mk user, repo := String.mk repo,
                meta := if after.isEmpty then "HEAD" else String.mk after })
    ∧ (∀ (cs : List Char) (host : RepositoryHost) (input1 : List Char) (offset : Nat)
        (user rest : List Char) (offset2 : Nat),
        rustTrim cs = cs →
        hostStep cs = Except.ok (host, input1, offset) →
        userStep offset input1 = Except.ok (user, rest, offset2) →
        byteIdxOf '#' rest = none →
        '/' ∈ rest →
        fromStr (String.mk cs)
          = Except.error (ParseError.invalidRepoName (String.mk rest) offset2 (byteLen rest))) := by
  refine ⟨?_, ?_, ?_⟩
  · intro cs host input1 offset user rest offset2 i j htrim hhost huser hi hj hij
    show fromStrL (rustTrim (String.mk cs).toList) = _
    have hl : (String.mk cs).toList = cs := rfl
    rw [hl, htrim]
    simp [fromStrL, hhost, huser, slashCheck, hi, hj, hij]
  · intro cs host input1 offset user rest offset2 i j repo after htrim hhost huser hi hj hij
      hsp hval
    show fromStrL (rustTrim (String.mk cs).toList) = _
    have hl : (String.mk cs).toList = cs := rfl
    rw [hl, htrim]
    simp [fromStrL, hhost, huser, slashCheck, hi, hj, hij, repoStep, hsp, hval]
  · intro cs host input1 offset user rest offset2 htrim hhost huser hj hmem
    show fromStrL (rustTrim (String.mk cs).toList) = _
    have hl : (String.mk cs).toList = cs := rfl
    rw [hl, htrim]
    have hsp : splitOnce '#' rest = none := by
      rw [splitOnce_eq_none_iff]
      rw [byteIdxOf_eq_none_iff] at hj
      exact hj
    have hval : rest.all is_valid_repo = false := by
      rcases hall : rest.all is_valid_repo with _ | _
      · rfl
      · have h2 := List.all_eq_true.mp hall '/' hmem
        simp [is_valid_repo, is_valid_user] at h2
    cases hslash : byteIdxOf '/' rest <;>
      simp [fromStrL, hhost, huser, slashCheck, hslash, hj, repoStep, hsp, hval]

/-- C6 amended, witnessed at `"user/re/po#x"` (slash before hash sign: the
span-exact multiple-slashes error), `"foo/bar#feat/x"` (slash only after the
hash sign: accepted, selector `"feat/x"`) and `"user/repo/extra"` (no hash
sign: rejected through repository-name validation). -/
theorem c6_amended_witness :
    fromStr (String.mk "user/re/po#x".toList)
      = Except.error (ParseError.multipleSlashes 7)
    ∧ fromStr (String.mk "foo/bar#feat/x".toList)
      = Except.ok
          { host := RepositoryHost.GitHub, user := String.mk "foo".toList,
            repo := String.mk "bar".toList,
            meta := if ("feat/x".toList : List Char).isEmpty then "HEAD"
              else String.mk "feat/x".toList }
    ∧ fromStr (String.mk "user/repo/extra".toList)
      = Except.error (ParseError.invalidRepoName (String.mk "repo/extra".toList) 5
          (byteLen "repo/extra".toList)) := by
  refine ⟨?_, ?_, ?_⟩
  · exact c6_amended.1 "user/re/po#x".toList RepositoryHost.GitHub "user/re/po#x".toList 0
      "user".toList "re/po#x".toList 5 2 5 (by decide) (by decide) (by decide) (by decide)
      (by decide) (by decide)
  · exact c6_amended.2.1 "foo/bar#feat/x".toList RepositoryHost.GitHub
      "foo/bar#feat/x".toList 0 "foo".toList "bar#feat/x".toList 4 8 3 "bar".toList
      "feat/x".toList (by decide) (by decide) (by decide) (by decide) (by decide)
      (by decide) (by decide) (by decide)
  · exact c6_amended.2.2 "user/repo/extra".toList RepositoryHost.GitHub
      "user/repo/extra".toList 0 "user".toList "repo/extra".toList 5 (by decide) (by decide)
      (by decide) (by decide) (by decide)

/-- C4: writing the same identity, name, hash and bytes twice (from a state
whose bucket holds no item hash-comparing with the hash) leaves the manifest
of the second write identical to that of the first, with exactly one item
carrying that hash in the identity's bucket; the blob is persisted under the
hash by both writes regardless of the de-dup decision; and a subsequent read
returns the written bytes. -/
theorem c4_write_idempotent
    (c : CacheState) (source name hash : String) (contents : List Nat) (ts1 ts2 : Int)
    (h : ((List.lookup (encodeEntry source) c.manifest).getD []).all
        (fun i => !(compare_hashes hash i.hash)) = true) :
    (Cache.write (Cache.write c source name hash contents ts1) source name hash contents
        ts2).manifest
      = (Cache.write c source name hash contents ts1).manifest
    ∧ ((List.lookup (encodeEntry source)
          (Cache.write c source name hash contents ts1).manifest).getD []).countP
        (fun i => i.hash = hash) = 1
    ∧ List.lookup hash (Cache.write c source name hash contents ts1).blobs = some contents
    ∧ List.lookup hash
        (Cache.write (Cache.write c source name hash contents ts1) source name hash contents
          ts2).blobs = some contents
    ∧ Cache.read
        (Cache.write (Cache.write c source name hash contents ts1) source name hash contents
          ts2) source hash = Except.ok (some contents) := by
  have hOldAll : ∀ i ∈ (List.lookup (encodeEntry source) c.manifest).getD [],
      compare_hashes hash i.hash = false := by
    intro i hi
    have := List.all_eq_true.mp h i hi
    simpa using this
  have hw1m : (Cache.write c source name hash contents ts1).manifest
      = manifestAfterWrite c.manifest (encodeEntry source) name hash ts1 := rfl
  have hB1 : List.lookup (encodeEntry source)
        (Cache.write c source name hash contents ts1).manifest
      = some ((List.lookup (encodeEntry source) c.manifest).getD []
          ++ [{ name := name, hash := hash, timestamp := ts1 }]) := by
    rw [hw1m]
    exact lookup_manifestAfterWrite_self _ _ _ _ _ h
  have hany1 : ((List.lookup (encodeEntry source) c.manifest).getD []
        ++ [({ name := name, hash := hash, timestamp := ts1 } : Item)]).any
      (fun item => compare_hashes hash item.hash) = true := by
    rw [List.any_eq_true]
    exact ⟨({ name := name, hash := hash, timestamp := ts1 } : Item), by simp,
      compare_hashes_self hash⟩
  have hnorm1 : normalize (Cache.write c source name hash contents ts1).manifest
      = (Cache.write c source name hash contents ts1).manifest := by
    rw [hw1m]
    exact normalize_normalize _
  have hm2 : (Cache.write (Cache.write c source name hash contents ts1) source name hash
        contents ts2).manifest
      = (Cache.write c source name hash contents ts1).manifest := by
    exact manifestAfterWrite_already _ _ _ _ _ _ hB1 hany1 hnorm1
  have hfnone : ((List.lookup (encodeEntry source) c.manifest).getD []).find?
      (fun item => compare_hashes hash item.hash) = none := by
    rw [List.find?_eq_none]
    intro x hx
    simp [hOldAll x hx]
  have hfind : findCachedItem
        (Cache.write (Cache.write c source name hash contents ts1) source name hash contents
          ts2) source hash
      = some { name := name, hash := hash, timestamp := ts1 } := by
    unfold findCachedItem
    rw [hm2, hB1]
    simp only [Option.some_bind]
    rw [find?_append_of_none _ _ _ hfnone]
    simp [List.find?_cons, compare_hashes_self]
  refine ⟨hm2, ?_, ?_, ?_, ?_⟩
  · rw [hB1]
    simp only [Option.getD_some, List.countP_append]
    have hz : ((List.lookup (encodeEntry source) c.manifest).getD []).countP
        (fun i => i.hash = hash) = 0 := by
      rw [List.countP_eq_zero]
      intro a ha
      simp only [decide_eq_true_eq]
      intro heq
      have := hOldAll a ha
      rw [heq] at this
      rw [compare_hashes_self hash] at this
      exact Bool.true_eq_false.mp this
    rw [hz]
    simp [List.countP_cons]
  · show List.lookup hash (ainsert hash contents c.blobs) = some contents
    rw [lookup_ainsert, if_pos rfl]
  · show List.lookup hash (ainsert hash contents (ainsert hash contents c.blobs))
      = some contents
    rw [lookup_ainsert, if_pos rfl]
  · unfold Cache.read
    rw [hfind]
    show (match List.lookup hash (ainsert hash contents (ainsert hash contents c.blobs)) with
      | some contents => Except.ok (some contents)
      | none => Except.error (CacheError.io "Failed to read the cached tarball.")) = _
    rw [lookup_ainsert, if_pos rfl]

/-- C4, witnessed on an empty cache with an eight-character hash: two
identical writes, one manifest item, the blob present, and the read returning
the bytes. -/
theorem c4_write_idempotent_witness :
    (Cache.write (Cache.write { manifest := [], blobs := [] } "github:foo/bar" "main"
        "4a5a56fd" [1, 2] 5) "github:foo/bar" "main" "4a5a56fd" [1, 2] 9).manifest
      = (Cache.write { manifest := [], blobs := [] } "github:foo/bar" "main" "4a5a56fd"
          [1, 2] 5).manifest
    ∧ ((List.lookup (encodeEntry "github:foo/bar")
          (Cache.write { manifest := [], blobs := [] } "github:foo/bar" "main" "4a5a56fd"
            [1, 2] 5).manifest).getD []).countP (fun i => i.hash = "4a5a56fd") = 1
    ∧ List.lookup "4a5a56fd"
        (Cache.write { manifest := [], blobs := [] } "github:foo/bar" "main" "4a5a56fd"
          [1, 2] 5).blobs = some [1, 2]
    ∧ List.lookup "4a5a56fd"
        (Cache.write (Cache.write { manifest := [], blobs := [] } "github:foo/bar" "main"
          "4a5a56fd" [1, 2] 5) "github:foo/bar" "main" "4a5a56fd" [1, 2] 9).blobs
        = some [1, 2]
    ∧ Cache.read
        (Cache.write (Cache.write { manifest := [], blobs := [] } "github:foo/bar" "main"
          "4a5a56fd" [1, 2] 5) "github:foo/bar" "main" "4a5a56fd" [1, 2] 9)
        "github:foo/bar" "4a5a56fd" = Except.ok (some [1, 2]) :=
  c4_write_idempotent { manifest := [], blobs := [] } "github:foo/bar" "main" "4a5a56fd"
    [1, 2] 5 9 (by decide)

/-- C5: `read` returns bytes exactly when the bucket scan finds an item whose
stored hash hash-compares with the requested hash and that item's blob is
present; a found item whose blob is absent from the store is the hard I/O
error, not a silent miss; no matching item is the silent miss; and after
writing under a 40-character hash into a fresh bucket, reading the same
identity with the first 8 characters of that hash returns the written
bytes. -/
theorem c5_read_semantics :
    (∀ (c : CacheState) (source hash : String) (bytes : List Nat),
        Cache.read c source hash = Except.ok (some bytes)
          ↔ ∃ item, findCachedItem c source hash = some item
              ∧ List.lookup item.hash c.blobs = some bytes)
    ∧ (∀ (c : CacheState) (source hash : String) (item : Item),
        findCachedItem c source hash = some item →
        List.lookup item.hash c.blobs = none →
        Cache.read c source hash
          = Except.error (CacheError.io "Failed to read the cached tarball."))
    ∧ (∀ (c : CacheState) (source hash : String),
        Cache.read c source hash = Except.ok none ↔ findCachedItem c source hash = none)
    ∧ (∀ (c : CacheState) (source name hash p : String) (t : List Char)
        (contents : List Nat) (ts : Int),
        List.lookup (encodeEntry source) c.manifest = none →
        hash.toList = p.toList ++ t →
        p.toList.length = 8 →
        hash.toList.length = 40 →
        Cache.read (Cache.write c source name hash contents ts) source p
          = Except.ok (some contents)) := by
  refine ⟨?_, ?_, ?_, ?_⟩
  · intro c source hash bytes
    unfold Cache.read
    cases hf : findCachedItem c source hash with
    | none => simp
    | some item =>
      cases hb : List.lookup item.hash c.blobs with
      | none => simp [hb]
      | some b => simp [hb, eq_comm]
  · intro c source hash item hf hb
    unfold Cache.read
    rw [hf]
    simp [hb]
  · intro c source hash
    unfold Cache.read
    cases hf : findCachedItem c source hash with
    | none => simp
    | some item =>
      cases hb : List.lookup item.hash c.blobs with
      | none => simp [hb]
      | some b => simp [hb]
  · intro c source name hash p t contents ts hfresh hsplit hlen8 hlen40
    have hcomp : compare_hashes p hash = true := by
      unfold compare_hashes
      have h8 : p.toList.length < hash.toList.length := by
        rw [hlen8, hlen40]
        norm_num
      rw [if_pos h8]
      unfold strStartsWith
      rw [hsplit]
      exact isPrefixOf_self_append _ _
    have hB : List.lookup (encodeEntry source)
          (Cache.write c source name hash contents ts).manifest
        = some [({ name := name, hash := hash, timestamp := ts } : Item)] := by
      have := lookup_manifestAfterWrite_self c.manifest (encodeEntry source) name hash ts
        (by rw [hfresh]; rfl)
      rw [hfresh] at this
      simpa using this
    have hfind : findCachedItem (Cache.write c source name hash contents ts) source p
        = some ({ name := name, hash := hash, timestamp := ts } : Item) := by
      unfold findCachedItem
      rw [hB]
      simp [List.find?_cons, hcomp]
    unfold Cache.read
    rw [hfind]
    show (match List.lookup hash (ainsert hash contents c.blobs) with
      | some contents => Except.ok (some contents)
      | none => Except.error (CacheError.io "Failed to read the cached tarball.")) = _
    rw [lookup_ainsert, if_pos rfl]

/-- C5, witnessed on an empty cache: a write under a full 40-character hash
followed by a read with its first 8 characters returns the written bytes. -/
theorem c5_read_semantics_witness :
    Cache.read
        (Cache.write { manifest := [], blobs := [] } "github:foo/bar" "main"
          "4a5a56fd4a5a56fd4a5a56fd4a5a56fd4a5a56fd" [1, 2, 3] 0)
        "github:foo/bar" "4a5a56fd" = Except.ok (some [1, 2, 3]) :=
  c5_read_semantics.2.2.2 { manifest := [], blobs := [] } "github:foo/bar" "main"
    "4a5a56fd4a5a56fd4a5a56fd4a5a56fd4a5a56fd" "4a5a56fd"
    "4a5a56fd4a5a56fd4a5a56fd4a5a56fd".toList [1, 2, 3] 0
    (by decide) (by decide) (by decide) (by decide)

/-- C3 amended: for every manifest with distinct bucket keys, the selection
computed by `select_entries` maps each bucket to the matches of the *last*
search term that matched it — a later term's per-bucket selection replaces an
earlier term's, rather than being united with it — where a single term's
matches are as the claim describes them (a literal repository identity selects
the whole bucket; any other term selects the bucket's items whose name equals
the term or whose hash hash-compares to it). -/
theorem c3_amended (m : ManifestMap) (search : List String) (entry : String)
    (hnd : (m.map Prod.fst).Nodup) :
    List.lookup entry (select_entries m search)
      = (search.reverse).findSome? (fun t => termMatches m t entry) := by
  unfold select_entries
  rw [lookup_select_fold m hnd search [] entry]
  cases hfs : (search.reverse).findSome? (fun t => termMatches m t entry) <;>
    simp [List.lookup_nil]

/-- C3 amended, witnessed on the two-term scenario: the selection for the
bucket is exactly the matches of the later term `"beta"` — the reverse-order
first match — not the union with `"alpha"`'s matches. -/
theorem c3_amended_witness :
    List.lookup (encodeEntry "github:foo/bar")
        (select_entries
          [(encodeEntry "github:foo/bar",
            [{ name := "alpha", hash := "aaaa1111", timestamp := 1 },
             { name := "beta", hash := "bbbb2222", timestamp := 2 }])]
          ["alpha", "beta"])
      = ((["alpha", "beta"] : List String).reverse).findSome?
          (fun t => termMatches
            [(encodeEntry "github:foo/bar",
              [{ name := "alpha", hash := "aaaa1111", timestamp := 1 },
               { name := "beta", hash := "bbbb2222", timestamp := 2 }])]
            t (encodeEntry "github:foo/bar")) :=
  c3_amended
    [(encodeEntry "github:foo/bar",
      [{ name := "alpha", hash := "aaaa1111", timestamp := 1 },
       { name := "beta", hash := "bbbb2222", timestamp := 2 }])]
    ["alpha", "beta"] (encodeEntry "github:foo/bar") (by decide)

/-- C7 amended, witnessed at `"foo@bar/baz"`: the user segment `"foo@bar"`
contains `@`, and parsing fails with the span-exact invalid-user error. -/
theorem c7_amended_witness :
    fromStr (String.mk "foo@bar/baz".toList)
      = Except.error (ParseError.invalidUser (String.mk "foo@bar".toList) 0
          (byteLen "foo@bar".toList)) :=
  c7_amended.1 "foo@bar/baz".toList RepositoryHost.GitHub "foo@bar/baz".toList 0
    "foo@bar".toList "baz".toList (by decide) (by decide) (by decide) (by decide)

end Decaff
